import Mathlib

/-
Verification of the `xmod` module-extension proxy builder (src/xmod.py).

The embedding models the Python objects the builder manipulates:
Python dicts (insertion-ordered association lists with in-place update),
the module registry `sys.modules`, modules as attribute maps, the
caller-supplied extension object, and the member mapping from which the
proxy class is synthesized.  Callables are opaque function identifiers;
a call environment `callF : Nat → List Value → Value` gives each
identifier its input/output behaviour, and theorems quantify over it.
-/

namespace Xmod

/-- Lookup in an insertion-ordered association list: first matching key wins
(keys are unique in every dict the builder constructs). -/
def alookup {α : Type} : List (String × α) → String → Option α
  | [], _ => none
  | p :: d, k => if p.1 = k then some p.2 else alookup d k

/-- Python dict assignment `d[k] = v`: replace the value in place when the key
exists (keeping its position), otherwise append the new binding. -/
def aset {α : Type} : List (String × α) → String → α → List (String × α)
  | [], k, v => [(k, v)]
  | p :: d, k, v => if p.1 = k then (k, v) :: d else p :: aset d k v

theorem alookup_aset_self {α : Type} (d : List (String × α)) (k : String) (v : α) :
    alookup (aset d k v) k = some v := by
  induction d with
  | nil => simp [aset, alookup]
  | cons p d ih =>
    by_cases h : p.1 = k
    · simp [aset, h, alookup]
    · simp [aset, h, alookup, ih]

theorem alookup_aset_ne {α : Type} (d : List (String × α)) {k k' : String} (v : α)
    (h : k' ≠ k) : alookup (aset d k v) k' = alookup d k' := by
  induction d with
  | nil => simp [aset, alookup, Ne.symm h]
  | cons p d ih =>
    by_cases hp : p.1 = k
    · subst hp
      simp [aset, alookup, Ne.symm h]
    · simp only [aset, hp, if_false, alookup]
      by_cases hk : p.1 = k'
      · simp [hk]
      · simp [hk, ih]

/-- Values reachable as attributes.  `base` and `str` are opaque non-callable
objects (`str` keeps string payloads comparable with module identifiers, as in
`__name__`); `func` is an opaque callable, identified by a function id that the
call environment interprets. -/
inductive Value where
  | base : Nat → Value
  | str : String → Value
  | func : Nat → Value
deriving DecidableEq, Repr

/-- Python `callable(value)` for attribute values. -/
def Value.callable : Value → Bool
  | Value.base _ => false
  | Value.str _ => false
  | Value.func _ => true

/-- A module: its attribute map (what `getattr` on the module consults and
`module.__setattr__` updates). -/
structure PyModule where
  attrs : List (String × Value)
deriving DecidableEq, Repr

/-- The caller-supplied extension object.  `dirAttrs` pairs every name
`dir(extension)` reports with its `getattr(extension, name)` value;
`moduleName` is `extension.__module__`; `isType` is
`isinstance(extension, type)`; `callId` is `some fid` exactly when
`callable(extension)`, with `fid` the id of the extension as a callable. -/
structure Extension where
  dirAttrs : List (String × Value)
  moduleName : String
  isType : Bool
  callId : Option Nat
deriving DecidableEq, Repr

/-- An entry of the member mapping from which the proxy class is built.
`val` is a value copied verbatim; `wrapped` is `method(f)` around a callable
attribute value `f` (the wrapper drops the implicit self and forwards the
remaining arguments); `extRef` and `origRef` are the bookkeeping references
stored under `_xmod_extension` and `_xmod_wrapped`; `extCall` is
`method(extension)` installed as the call hook; `getattrFwd` and `setattrFwd`
are `method(original.__getattribute__)` and `method(original.__setattr__)`,
closures over the live original module that the proxy retains. -/
inductive MemberVal where
  | val : Value → MemberVal
  | wrapped : Value → MemberVal
  | extRef : MemberVal
  | origRef : MemberVal
  | extCall : MemberVal
  | getattrFwd : MemberVal
  | setattrFwd : MemberVal
deriving DecidableEq, Repr

/-- The member mapping under construction (a Python dict). -/
abbrev Members := List (String × MemberVal)

/-- Module-identity properties copied verbatim from the original module
(constant MODULE_PROPERTIES in the source; the source keeps it as a set,
iteration order is immaterial because each key is assigned once). -/
def MODULE_PROPERTIES : List String :=
  ["__all__", "__cached__", "__doc__", "__file__", "__loader__",
   "__name__", "__package__", "__path__", "__spec__"]

/-- Attribute names never delegated from the extension (constant OMIT). -/
def OMIT : List String :=
  ["__class__", "__getattr__", "__getattribute__", "__init__",
   "__init_subclass__", "__new__", "__setattr__"]

def EXTENSION_ATTRIBUTE : String := "_xmod_extension"

def WRAPPED_ATTRIBUTE : String := "_xmod_wrapped"

/-- Step 3 of the construction: the initial member mapping
`members = \x7bEXTENSION_ATTRIBUTE: extension, WRAPPED_ATTRIBUTE: original\x7d`. -/
def initMembers : Members :=
  aset (aset [] EXTENSION_ATTRIBUTE MemberVal.extRef) WRAPPED_ATTRIBUTE MemberVal.origRef

/-- Body of the `for attr in dir(extension)` loop: skip names in the omit set;
copy non-callable values verbatim; wrap callable values with `method` unless
the extension is itself a type. -/
def loopStep (isType : Bool) (om : List String) (acc : Members) (av : String × Value) : Members :=
  if av.1 ∈ om then acc
  else if ¬ av.2.callable then aset acc av.1 (MemberVal.val av.2)
  else if ¬ isType then aset acc av.1 (MemberVal.wrapped av.2)
  else acc

/-- Step 4: the full enumeration loop over `dir(extension)`. -/
def loopMembers (e : Extension) (om : List String) (ms : Members) : Members :=
  e.dirAttrs.foldl (loopStep e.isType om) ms

/-- Step 5: `if callable(extension): members["__call__"] = method(extension)`. -/
def addCallHook (e : Extension) (ms : Members) : Members :=
  if e.callId.isSome then aset ms "__call__" MemberVal.extCall else ms

/-- Step 6: install the two fallback accessors,
`members["__getattr__"] = method(original.__getattribute__)` and
`members["__setattr__"] = method(original.__setattr__)`. -/
def addFallbacks (ms : Members) : Members :=
  aset (aset ms "__getattr__" MemberVal.getattrFwd) "__setattr__" MemberVal.setattrFwd

/-- Step 7: copy each property the original module actually has, verbatim
(`getattr(original, k, none)` with a sentinel default). -/
def addProperties (orig : PyModule) (props : List String) (ms : Members) : Members :=
  props.foldl
    (fun acc k =>
      match alookup orig.attrs k with
      | some v => aset acc k (MemberVal.val v)
      | none => acc)
    ms

/-- The accumulated member mapping handed to `type(name, (object,), members)`. -/
def buildMembers (e : Extension) (orig : PyModule) (props om : List String) : Members :=
  addProperties orig props (addFallbacks (addCallHook e (loopMembers e om initMembers)))

/-- The installed proxy: the single instance of the synthesized class.
`members` is the class dict; `ext` and `orig` are the extension and the live
original module retained through the closures of the installed hooks;
`instAttrs` is the instance dict (it stays empty for xmod proxies because the
installed `__setattr__` hook diverts every write). -/
structure Proxy where
  className : String
  members : Members
  ext : Extension
  orig : PyModule
  instAttrs : List (String × Value)
deriving DecidableEq, Repr

/-- An entry of `sys.modules`: a plain module, or a proxy installed by the
builder.  Re-extending an already-extended module (the looked-up entry being a
proxy) is outside the modelled domain. -/
inductive RegEntry where
  | mod : PyModule → RegEntry
  | proxy : Proxy → RegEntry
deriving DecidableEq, Repr

/-- The module registry `sys.modules`. -/
abbrev Registry := List (String × RegEntry)

/-- Outcome of one call of the builder.  `ret` models a normal return of the
extension; `deferred` models the `functools` partial application returned when
the extension is omitted; `keyError` models the `sys.modules[name]` lookup
failure; `assertionError` models the failed assert; `unmodelled` marks the
registry entry being a proxy already, which the embedding does not model. -/
inductive XmodOutcome where
  | ret : Extension → XmodOutcome
  | deferred : Option String → Option (List String) → Option (List String) → XmodOutcome
  | keyError : String → XmodOutcome
  | assertionError : XmodOutcome
  | unmodelled : XmodOutcome
deriving DecidableEq, Repr

/-- The builder `xmod(extension=None, name=None, properties=None, omit=None)`,
with the registry passed as explicit state.  Returns the outcome and the
registry after the call. -/
def xmod (reg : Registry) (extension : Option Extension) (name : Option String)
    (properties : Option (List String)) (om : Option (List String)) :
    XmodOutcome × Registry :=
  match extension with
  | none =>
    if name.isSome || om.isSome || properties.isSome then
      (XmodOutcome.deferred name properties om, reg)
    else
      (XmodOutcome.assertionError, reg)
  | some e =>
    let n := name.getD e.moduleName
    let props := properties.getD MODULE_PROPERTIES
    let omitted := om.getD OMIT
    match alookup reg n with
    | none => (XmodOutcome.keyError n, reg)
    | some (RegEntry.proxy _) => (XmodOutcome.unmodelled, reg)
    | some (RegEntry.mod original) =>
      let members := buildMembers e original props omitted
      (XmodOutcome.ret e, aset reg n (RegEntry.proxy ⟨n, members, e, original, []⟩))

/-- Calling the value returned by a deferred (extension-omitted) invocation on
an extension: `functools.partial(xmod, name=name, properties=properties,
omit=omit)` applied to `e` calls `xmod(e, name, properties, omit)`.  `none`
when the outcome is not the deferred callable. -/
def applyDeferred (reg : Registry) (out : XmodOutcome) (e : Extension) :
    Option (XmodOutcome × Registry) :=
  match out with
  | XmodOutcome.deferred n pr omt => some (xmod reg (some e) n pr omt)
  | _ => none

/-- Result of an attribute read on the proxy: found in the instance dict,
found among the class members, or obtained from the original module through
the `__getattr__` fallback. -/
inductive ReadResult where
  | fromInstance : Value → ReadResult
  | member : MemberVal → ReadResult
  | fromOrig : Value → ReadResult
deriving DecidableEq, Repr

/-- Attribute read on the proxy instance, following the host precedence:
instance dict, then class members, and only on a miss the `__getattr__` hook,
which (being `method(original.__getattribute__)`) reads the original module.
`none` models the propagated attribute error. -/
def Proxy.readAttr (p : Proxy) (a : String) : Option ReadResult :=
  match alookup p.instAttrs a with
  | some v => some (ReadResult.fromInstance v)
  | none =>
    match alookup p.members a with
    | some m => some (ReadResult.member m)
    | none =>
      match alookup p.members "__getattr__" with
      | some MemberVal.getattrFwd => (alookup p.orig.attrs a).map ReadResult.fromOrig
      | _ => none

/-- Attribute write on the proxy instance.  A class-level `__setattr__`
intercepts every assignment, so when the installed hook
`method(original.__setattr__)` is present the write updates the original
module; otherwise the default behaviour writes the instance dict. -/
def Proxy.writeAttr (p : Proxy) (a : String) (v : Value) : Proxy :=
  match alookup p.members "__setattr__" with
  | some MemberVal.setattrFwd => { p with orig := ⟨aset p.orig.attrs a v⟩ }
  | _ => { p with instAttrs := aset p.instAttrs a v }

/-- Calling the proxy instance with positional arguments: the host invokes the
class-level `__call__`.  The installed hook `method(extension)` drops the
implicit self and calls the extension itself; a wrapped or raw callable stored
at `__call__` is invoked through the call environment; anything else is the
"not callable" error, modelled as `none`. -/
def Proxy.callProxy (callF : Nat → List Value → Value) (p : Proxy) (args : List Value) :
    Option Value :=
  match alookup p.members "__call__" with
  | some MemberVal.extCall =>
    match p.ext.callId with
    | some fid => some (callF fid args)
    | none => none
  | some (MemberVal.wrapped (Value.func fid)) => some (callF fid args)
  | some (MemberVal.val (Value.func fid)) => some (callF fid args)
  | _ => none

/-- Invoking a member found on the proxy (the implicit self already dropped):
only wrapped callables are modelled, `method(f)` forwarding its arguments to
`f` unchanged and returning the result. -/
def callMember (callF : Nat → List Value → Value) (m : MemberVal) (args : List Value) :
    Option Value :=
  match m with
  | MemberVal.wrapped (Value.func fid) => some (callF fid args)
  | _ => none

/-- What the enumeration loop stores for an attribute value `v` that is not
omitted: the raw value when non-callable, the `method` wrapper when callable
on an ordinary instance, nothing when the extension is a type. -/
def loopVal (isType : Bool) (v : Value) : Option MemberVal :=
  if ¬ v.callable then some (MemberVal.val v)
  else if ¬ isType then some (MemberVal.wrapped v)
  else none

theorem alookup_loopStep_ne (isType : Bool) (om : List String) (ms : Members)
    (av : String × Value) {a : String} (h : av.1 ≠ a) :
    alookup (loopStep isType om ms av) a = alookup ms a := by
  unfold loopStep
  split
  · rfl
  · split
    · exact alookup_aset_ne ms _ (Ne.symm h)
    · split
      · exact alookup_aset_ne ms _ (Ne.symm h)
      · rfl

theorem alookup_foldl_loopStep_not_mem (isType : Bool) (om : List String)
    (l : List (String × Value)) (ms : Members) {a : String}
    (h : a ∉ l.map Prod.fst) :
    alookup (l.foldl (loopStep isType om) ms) a = alookup ms a := by
  induction l generalizing ms with
  | nil => rfl
  | cons av l ih =>
    simp only [List.map_cons, List.mem_cons] at h
    push_neg at h
    simp only [List.foldl_cons]
    rw [ih _ h.2, alookup_loopStep_ne isType om ms av (Ne.symm h.1)]

theorem alookup_foldl_loopStep_omitted (isType : Bool) (om : List String)
    (l : List (String × Value)) (ms : Members) {a : String} (h : a ∈ om) :
    alookup (l.foldl (loopStep isType om) ms) a = alookup ms a := by
  induction l generalizing ms with
  | nil => rfl
  | cons av l ih =>
    simp only [List.foldl_cons]
    rw [ih]
    by_cases hav : av.1 = a
    · unfold loopStep
      rw [hav, if_pos h]
    · exact alookup_loopStep_ne isType om ms av hav

theorem alookup_foldl_loopStep_found (isType : Bool) (om : List String)
    (l : List (String × Value)) (ms : Members) {a : String} {v : Value}
    (hnd : (l.map Prod.fst).Nodup) (hmem : (a, v) ∈ l) (hom : a ∉ om) :
    alookup (l.foldl (loopStep isType om) ms) a =
      ((loopVal isType v).map some).getD (alookup ms a) := by
  induction l generalizing ms with
  | nil => cases hmem
  | cons av l ih =>
    simp only [List.map_cons, List.nodup_cons] at hnd
    rcases List.mem_cons.mp hmem with heq | htail
    · subst heq
      simp only [List.foldl_cons]
      have hrest : a ∉ l.map Prod.fst := hnd.1
      rw [alookup_foldl_loopStep_not_mem isType om l _ hrest]
      unfold loopStep loopVal
      rw [if_neg hom]
      split
      · simp [alookup_aset_self]
      · split
        · simp [alookup_aset_self]
        · simp
    · have hne : av.1 ≠ a := by
        intro he
        exact hnd.1 (he ▸ (List.mem_map.mpr ⟨(a, v), htail, rfl⟩))
      simp only [List.foldl_cons]
      rw [ih _ hnd.2 htail, alookup_loopStep_ne isType om ms av hne]

theorem alookup_addProperties (orig : PyModule) (props : List String) (ms : Members)
    (a : String) :
    alookup (addProperties orig props ms) a =
      if a ∈ props then
        match alookup orig.attrs a with
        | some v => some (MemberVal.val v)
        | none => alookup ms a
      else alookup ms a := by
  induction props generalizing ms with
  | nil => simp [addProperties]
  | cons p ps ih =>
    simp only [addProperties, List.foldl_cons] at *
    rw [ih]
    by_cases hp : a = p
    · subst hp
      by_cases hps : a ∈ ps
      · cases hv : alookup orig.attrs a with
        | none => simp [hps, hv]
        | some v => simp [hps, hv]
      · cases hv : alookup orig.attrs a with
        | none => simp [hps, hv]
        | some v => simp [hps, hv, alookup_aset_self]
    · have hstep : ∀ ms2 : Members,
          alookup (match alookup orig.attrs p with
                   | some v => aset ms2 p (MemberVal.val v)
                   | none => ms2) a = alookup ms2 a := by
        intro ms2
        cases hv : alookup orig.attrs p with
        | none => rfl
        | some v => exact alookup_aset_ne ms2 _ hp
      rw [hstep]
      simp [List.mem_cons, hp]

theorem buildMembers_setattr (e : Extension) (orig : PyModule) (props om : List String)
    (h : "__setattr__" ∉ props) :
    alookup (buildMembers e orig props om) "__setattr__" = some MemberVal.setattrFwd := by
  unfold buildMembers addFallbacks
  rw [alookup_addProperties]
  simp only [h, if_false]
  exact alookup_aset_self _ _ _

theorem buildMembers_getattr (e : Extension) (orig : PyModule) (props om : List String)
    (h : "__getattr__" ∉ props) :
    alookup (buildMembers e orig props om) "__getattr__" = some MemberVal.getattrFwd := by
  unfold buildMembers addFallbacks
  rw [alookup_addProperties]
  simp only [h, if_false]
  rw [alookup_aset_ne _ _ (by decide)]
  exact alookup_aset_self _ _ _

theorem buildMembers_call (e : Extension) (orig : PyModule) (props om : List String)
    (hc : e.callId.isSome) (h : "__call__" ∉ props) :
    alookup (buildMembers e orig props om) "__call__" = some MemberVal.extCall := by
  unfold buildMembers addFallbacks addCallHook
  rw [alookup_addProperties]
  simp only [h, if_false]
  rw [alookup_aset_ne _ _ (by decide), alookup_aset_ne _ _ (by decide)]
  rw [if_pos hc]
  exact alookup_aset_self _ _ _

theorem xmod_direct_eq (reg : Registry) (e : Extension) (n : String)
    (pr omt : Option (List String)) (M : PyModule)
    (h : alookup reg n = some (RegEntry.mod M)) :
    xmod reg (some e) (some n) pr omt =
      (XmodOutcome.ret e,
       aset reg n (RegEntry.proxy
         ⟨n, buildMembers e M (pr.getD MODULE_PROPERTIES) (omt.getD OMIT), e, M, []⟩)) := by
  simp [xmod, h]

/-- Claim C1: a direct call with the extension and a registered name returns
the extension unchanged and, as its only registry effect, replaces the entry
at that name with the single instance of the class synthesized from the
accumulated member mapping. -/
theorem xmod_direct_install (reg : Registry) (e : Extension) (n : String) (M : PyModule)
    (h : alookup reg n = some (RegEntry.mod M)) :
    (xmod reg (some e) (some n) none none).1 = XmodOutcome.ret e ∧
    alookup (xmod reg (some e) (some n) none none).2 n =
      some (RegEntry.proxy ⟨n, buildMembers e M MODULE_PROPERTIES OMIT, e, M, []⟩) := by
  rw [xmod_direct_eq reg e n none none M h]
  exact ⟨rfl, alookup_aset_self _ _ _⟩

theorem xmod_direct_install_witness :
    (xmod [("m", RegEntry.mod ⟨[]⟩)] (some ⟨[], "m", false, none⟩) (some "m") none none).1 =
      XmodOutcome.ret ⟨[], "m", false, none⟩ ∧
    alookup (xmod [("m", RegEntry.mod ⟨[]⟩)]
        (some ⟨[], "m", false, none⟩) (some "m") none none).2 "m" =
      some (RegEntry.proxy
        ⟨"m", buildMembers ⟨[], "m", false, none⟩ ⟨[]⟩ MODULE_PROPERTIES OMIT,
         ⟨[], "m", false, none⟩, ⟨[]⟩, []⟩) :=
  xmod_direct_install [("m", RegEntry.mod ⟨[]⟩)] ⟨[], "m", false, none⟩ "m" ⟨[]⟩ (by decide)

/-- Claim C6: with the extension omitted and at least one configuration
argument supplied, the builder returns the deferred callable without touching
the registry, and invoking that callable later on an extension performs
exactly the direct call with the captured configuration. -/
theorem deferred_equiv (reg reg2 : Registry) (n : Option String)
    (pr omt : Option (List String)) (e : Extension)
    (h : n.isSome ∨ pr.isSome ∨ omt.isSome) :
    xmod reg none n pr omt = (XmodOutcome.deferred n pr omt, reg) ∧
    applyDeferred reg2 (XmodOutcome.deferred n pr omt) e =
      some (xmod reg2 (some e) n pr omt) := by
  constructor
  · have hb : (n.isSome || omt.isSome || pr.isSome) = true := by
      rcases h with h | h | h <;> simp [h]
    simp [xmod, hb]
  · rfl

theorem deferred_equiv_witness :
    xmod [] none (some "m") none none = (XmodOutcome.deferred (some "m") none none, []) ∧
    applyDeferred [("m", RegEntry.mod ⟨[]⟩)] (XmodOutcome.deferred (some "m") none none)
        ⟨[], "m", false, none⟩ =
      some (xmod [("m", RegEntry.mod ⟨[]⟩)] (some ⟨[], "m", false, none⟩)
        (some "m") none none) :=
  deferred_equiv [] [("m", RegEntry.mod ⟨[]⟩)] (some "m") none none
    ⟨[], "m", false, none⟩ (Or.inl (by decide))

/-- Claim C7: the builder fails with the assertion error exactly when called
with no extension and no configuration at all, fails with the key error
exactly when the resolved identifier is absent from the registry, and on the
remaining modelled inputs returns normally (the extension, or the deferred
callable). -/
theorem xmod_error_conditions (reg : Registry) (e : Extension) (n : Option String)
    (pr omt : Option (List String)) (M : PyModule) :
    (xmod reg none none none none).1 = XmodOutcome.assertionError ∧
    ((xmod reg none n pr omt).1 = XmodOutcome.assertionError →
      n = none ∧ pr = none ∧ omt = none) ∧
    (alookup reg (n.getD e.moduleName) = none →
      (xmod reg (some e) n pr omt).1 = XmodOutcome.keyError (n.getD e.moduleName)) ∧
    (∀ s, (xmod reg (some e) n pr omt).1 = XmodOutcome.keyError s →
      s = n.getD e.moduleName ∧ alookup reg (n.getD e.moduleName) = none) ∧
    (alookup reg (n.getD e.moduleName) = some (RegEntry.mod M) →
      (xmod reg (some e) n pr omt).1 = XmodOutcome.ret e) ∧
    ((n.isSome ∨ pr.isSome ∨ omt.isSome) →
      (xmod reg none n pr omt).1 = XmodOutcome.deferred n pr omt) := by
  refine ⟨rfl, ?_, ?_, ?_, ?_, ?_⟩
  · cases n <;> cases pr <;> cases omt <;> simp [xmod]
  · intro hmiss
    simp [xmod, hmiss]
  · intro s hout
    rcases hreg : alookup reg (n.getD e.moduleName) with _ | entry
    · simp [xmod, hreg] at hout
      exact ⟨hout.symm, rfl⟩
    · rcases entry with M2 | p <;> simp [xmod, hreg] at hout
  · intro hmod
    simp [xmod, hmod]
  · intro h
    have hb : (n.isSome || omt.isSome || pr.isSome) = true := by
      rcases h with h | h | h <;> simp [h]
    simp [xmod, hb]

theorem xmod_error_conditions_witness :
    (xmod [] (some ⟨[], "m", false, none⟩) none none none).1 =
      XmodOutcome.keyError "m" ∧
    (xmod [] none none none none).1 = XmodOutcome.assertionError :=
  ⟨(xmod_error_conditions [] ⟨[], "m", false, none⟩ none none none ⟨[]⟩).2.2.1 (by decide),
   (xmod_error_conditions [] ⟨[], "m", false, none⟩ none none none ⟨[]⟩).1⟩

/-- Claim C8: construction is atomic with respect to the registry: either the
call succeeds, returns the extension and performs the single registry write of
the installed proxy, or the registry is returned exactly as it was. -/
theorem xmod_registry_atomic (reg : Registry) (eo : Option Extension) (n : Option String)
    (pr omt : Option (List String)) :
    (xmod reg eo n pr omt).2 = reg ∨
    ∃ e M, eo = some e ∧
      alookup reg (n.getD e.moduleName) = some (RegEntry.mod M) ∧
      (xmod reg eo n pr omt).1 = XmodOutcome.ret e ∧
      (xmod reg eo n pr omt).2 =
        aset reg (n.getD e.moduleName)
          (RegEntry.proxy ⟨n.getD e.moduleName,
            buildMembers e M (pr.getD MODULE_PROPERTIES) (omt.getD OMIT), e, M, []⟩) := by
  cases eo with
  | none =>
    left
    show (if (n.isSome || omt.isSome || pr.isSome) = true
          then (XmodOutcome.deferred n pr omt, reg)
          else (XmodOutcome.assertionError, reg)).2 = reg
    by_cases hb : (n.isSome || omt.isSome || pr.isSome) = true
    · rw [if_pos hb]
    · rw [if_neg hb]
  | some e =>
    rcases hreg : alookup reg (n.getD e.moduleName) with _ | entry
    · left
      simp [xmod, hreg]
    · rcases entry with M | p
      · right
        exact ⟨e, M, rfl, hreg, by simp [xmod, hreg], by simp [xmod, hreg]⟩
      · left
        simp [xmod, hreg]

/-- Claim C9: the enumeration loop never copies or wraps an omitted name: for
every name in the omit set, the member mapping after the loop holds exactly
what it held before the loop at that name, whatever the extension defines. -/
theorem omitted_names_not_copied (e : Extension) (om : List String) (ms : Members)
    (a : String) (h : a ∈ om) :
    alookup (loopMembers e om ms) a = alookup ms a :=
  alookup_foldl_loopStep_omitted e.isType om e.dirAttrs ms h

theorem omitted_names_not_copied_witness :
    alookup (loopMembers ⟨[("secret", Value.base 9)], "m", false, none⟩
      ["secret"] initMembers) "secret" = alookup initMembers "secret" :=
  omitted_names_not_copied ⟨[("secret", Value.base 9)], "m", false, none⟩
    ["secret"] initMembers "secret" (by decide)

/-- Claim C5: the enumeration loop classifies each non-omitted attribute: a
non-callable value is copied verbatim; a callable value on an ordinary
instance is stored as the forwarding wrapper, which invoked on the proxy calls
the original callable with the same arguments and returns its result; when
the extension is itself a type, callable attributes are left out entirely. -/
theorem loop_member_classification (e : Extension) (om : List String) (ms : Members)
    (a : String) (v : Value) (callF : Nat → List Value → Value)
    (hnd : (e.dirAttrs.map Prod.fst).Nodup) (hmem : (a, v) ∈ e.dirAttrs) (hom : a ∉ om) :
    (¬ v.callable →
      alookup (loopMembers e om ms) a = some (MemberVal.val v)) ∧
    (v.callable → e.isType = false →
      ∃ fid, v = Value.func fid ∧
        alookup (loopMembers e om ms) a = some (MemberVal.wrapped v) ∧
        ∀ args, callMember callF (MemberVal.wrapped v) args = some (callF fid args)) ∧
    (v.callable → e.isType = true →
      alookup (loopMembers e om ms) a = alookup ms a) := by
  have hfound := alookup_foldl_loopStep_found e.isType om e.dirAttrs ms hnd hmem hom
  refine ⟨?_, ?_, ?_⟩
  · intro hnc
    rw [loopMembers, hfound]
    unfold loopVal
    rw [if_pos hnc]
    rfl
  · intro hc ht
    cases v with
    | base k => simp [Value.callable] at hc
    | str s => simp [Value.callable] at hc
    | func fid =>
      refine ⟨fid, rfl, ?_, fun args => rfl⟩
      rw [loopMembers, hfound]
      unfold loopVal
      rw [if_neg (by simp [Value.callable]), if_pos (by simp [ht])]
      rfl
  · intro hc ht
    rw [loopMembers, hfound]
    unfold loopVal
    rw [if_neg (by simp [hc]), if_neg (by simp [ht])]
    rfl

theorem loop_member_classification_witness :
    alookup (loopMembers ⟨[("a", Value.base 1), ("f", Value.func 5)], "m", false, none⟩
        [] []) "a" = some (MemberVal.val (Value.base 1)) ∧
    alookup (loopMembers ⟨[("a", Value.base 1), ("f", Value.func 5)], "m", false, none⟩
        [] []) "f" = some (MemberVal.wrapped (Value.func 5)) ∧
    callMember (fun fid args => Value.func (fid + args.length))
        (MemberVal.wrapped (Value.func 5)) [Value.base 0] = some (Value.func 6) := by
  refine ⟨?_, ?_, ?_⟩
  · exact (loop_member_classification
      ⟨[("a", Value.base 1), ("f", Value.func 5)], "m", false, none⟩ [] [] "a"
      (Value.base 1) (fun fid args => Value.func (fid + args.length))
      (by decide) (by decide) (by decide)).1 (by decide)
  · obtain ⟨fid, hfid, hl, hcall⟩ := (loop_member_classification
      ⟨[("a", Value.base 1), ("f", Value.func 5)], "m", false, none⟩ [] [] "f"
      (Value.func 5) (fun fid args => Value.func (fid + args.length))
      (by decide) (by decide) (by decide)).2.1 (by decide) rfl
    exact hl
  · obtain ⟨fid, hfid, hl, hcall⟩ := (loop_member_classification
      ⟨[("a", Value.base 1), ("f", Value.func 5)], "m", false, none⟩ [] [] "f"
      (Value.func 5) (fun fid args => Value.func (fid + args.length))
      (by decide) (by decide) (by decide)).2.1 (by decide) rfl
    cases Value.func.inj hfid
    exact hcall [Value.base 0]

/-- Claim C4: every name in the properties set that the original module
actually has is copied verbatim into the member mapping, overriding whatever
the extension contributed there; in particular the installed proxy reads
`__name__` as the module identifier when the original module did. -/
theorem module_properties_win (reg : Registry) (e : Extension) (n : String) (M : PyModule)
    (props om : List String) (k : String) (v : Value)
    (hk : k ∈ props) (hv : alookup M.attrs k = some v) :
    alookup (buildMembers e M props om) k = some (MemberVal.val v) ∧
    (alookup reg n = some (RegEntry.mod M) →
      alookup M.attrs "__name__" = some (Value.str n) →
      ∃ P : Proxy,
        alookup (xmod reg (some e) (some n) none none).2 n = some (RegEntry.proxy P) ∧
        P.readAttr "__name__" = some (ReadResult.member (MemberVal.val (Value.str n)))) := by
  constructor
  · unfold buildMembers
    rw [alookup_addProperties]
    simp [hk, hv]
  · intro hreg hname
    refine ⟨⟨n, buildMembers e M MODULE_PROPERTIES OMIT, e, M, []⟩, ?_, ?_⟩
    · rw [xmod_direct_eq reg e n none none M hreg]
      exact alookup_aset_self _ _ _
    · have hm : alookup (buildMembers e M MODULE_PROPERTIES OMIT) "__name__" =
          some (MemberVal.val (Value.str n)) := by
        unfold buildMembers
        rw [alookup_addProperties]
        simp [hname, show ("__name__" : String) ∈ MODULE_PROPERTIES by decide]
      simp [Proxy.readAttr, alookup, hm]

theorem module_properties_win_witness :
    alookup (buildMembers ⟨[("__doc__", Value.str "ext doc")], "m", false, none⟩
        ⟨[("__doc__", Value.str "mod doc")]⟩ MODULE_PROPERTIES OMIT) "__doc__" =
      some (MemberVal.val (Value.str "mod doc")) :=
  (module_properties_win [("m", RegEntry.mod ⟨[("__doc__", Value.str "mod doc")]⟩)]
    ⟨[("__doc__", Value.str "ext doc")], "m", false, none⟩ "m"
    ⟨[("__doc__", Value.str "mod doc")]⟩ MODULE_PROPERTIES OMIT "__doc__"
    (Value.str "mod doc") (by decide) (by decide)).1

/-- Claim C3: installing a callable extension makes calling the registry entry
forward to the extension: the call hook drops the implicit self and passes the
arguments through unchanged, so the result is exactly the extension applied to
those arguments, for every call environment and argument list. -/
theorem call_forwarding (reg : Registry) (e : Extension) (n : String) (M : PyModule)
    (fid : Nat)
    (hreg : alookup reg n = some (RegEntry.mod M))
    (hc : e.callId = some fid) :
    ∃ P : Proxy,
      alookup (xmod reg (some e) (some n) none none).2 n = some (RegEntry.proxy P) ∧
      ∀ callF args, Proxy.callProxy callF P args = some (callF fid args) := by
  refine ⟨⟨n, buildMembers e M MODULE_PROPERTIES OMIT, e, M, []⟩, ?_, ?_⟩
  · rw [xmod_direct_eq reg e n none none M hreg]
    exact alookup_aset_self _ _ _
  · intro callF args
    have h1 : alookup (buildMembers e M MODULE_PROPERTIES OMIT) "__call__" =
        some MemberVal.extCall :=
      buildMembers_call e M _ _ (by rw [hc]; rfl) (by decide)
    simp [Proxy.callProxy, h1, hc]

theorem call_forwarding_witness :
    ∃ P : Proxy,
      alookup (xmod [("m", RegEntry.mod ⟨[]⟩)] (some ⟨[], "m", false, some 7⟩)
        (some "m") none none).2 "m" = some (RegEntry.proxy P) ∧
      ∀ callF args, Proxy.callProxy callF P args = some (callF 7 args) :=
  call_forwarding [("m", RegEntry.mod ⟨[]⟩)] ⟨[], "m", false, some 7⟩ "m" ⟨[]⟩ 7
    (by decide) (by decide)

def cexExt : Extension := ⟨[("a", Value.base 1)], "m", false, none⟩

def cexMod : PyModule := ⟨[("__name__", Value.str "m")]⟩

def cexReg : Registry := [("m", RegEntry.mod cexMod)]

def cexProxy : Proxy := ⟨"m", buildMembers cexExt cexMod MODULE_PROPERTIES OMIT, cexExt, cexMod, []⟩

/-- Claim C2 counterexample: on the installed proxy, the attribute-write hook
fires even for a name already present as a proxy member.  Here `a` is a
constructed member (copied from the extension) and absent from the original
module, yet writing `a` reaches the original module, so the write fallback did
not fire only for names absent from the proxy members. -/
theorem write_hook_fires_on_present_member :
    alookup (xmod cexReg (some cexExt) (some "m") none none).2 "m" =
      some (RegEntry.proxy cexProxy) ∧
    alookup cexProxy.members "a" = some (MemberVal.val (Value.base 1)) ∧
    alookup cexProxy.orig.attrs "a" = none ∧
    alookup ((cexProxy.writeAttr "a" (Value.base 2)).orig.attrs) "a" =
      some (Value.base 2) := by
  refine ⟨?_, ?_, ?_, ?_⟩ <;> decide

/-- Claim C2 (amended): on the installed proxy, lookup resolves the
constructed members first and the attribute-read fallback fires only for
names absent from them; the attribute-write hook, however, forwards every
assignment to the original module, for present and absent member names alike,
leaving the member mapping unchanged. -/
theorem fallback_precedence_amended (reg : Registry) (e : Extension) (n : String)
    (M : PyModule) (pr omt : Option (List String))
    (hga : "__getattr__" ∉ pr.getD MODULE_PROPERTIES)
    (hsa : "__setattr__" ∉ pr.getD MODULE_PROPERTIES)
    (hreg : alookup reg n = some (RegEntry.mod M)) :
    ∃ P : Proxy,
      alookup (xmod reg (some e) (some n) pr omt).2 n = some (RegEntry.proxy P) ∧
      (∀ a m, alookup P.members a = some m → P.readAttr a = some (ReadResult.member m)) ∧
      (∀ a r, P.readAttr a = some (ReadResult.fromOrig r) →
        alookup P.members a = none ∧ alookup P.orig.attrs a = some r) ∧
      (∀ a v, (P.writeAttr a v).orig.attrs = aset P.orig.attrs a v ∧
        (P.writeAttr a v).members = P.members) := by
  have hga2 := buildMembers_getattr e M (pr.getD MODULE_PROPERTIES) (omt.getD OMIT) hga
  have hsa2 := buildMembers_setattr e M (pr.getD MODULE_PROPERTIES) (omt.getD OMIT) hsa
  refine ⟨⟨n, buildMembers e M (pr.getD MODULE_PROPERTIES) (omt.getD OMIT), e, M, []⟩,
    ?_, ?_, ?_, ?_⟩
  · rw [xmod_direct_eq reg e n pr omt M hreg]
    exact alookup_aset_self _ _ _
  · intro a m hm
    simp [Proxy.readAttr, alookup, hm]
  · intro a r hr
    rcases hmem : alookup (buildMembers e M (pr.getD MODULE_PROPERTIES) (omt.getD OMIT)) a
      with _ | m
    · refine ⟨rfl, ?_⟩
      simp only [Proxy.readAttr, alookup, hmem, hga2] at hr
      rcases horig : alookup M.attrs a with _ | w
      · rw [horig] at hr
        simp at hr
      · rw [horig] at hr
        simp at hr
        rw [hr]
    · exfalso
      simp [Proxy.readAttr, alookup, hmem] at hr
  · intro a v
    exact ⟨by simp [Proxy.writeAttr, hsa2], by simp [Proxy.writeAttr, hsa2]⟩

theorem fallback_precedence_amended_witness :
    ∃ P : Proxy,
      alookup (xmod [("m", RegEntry.mod ⟨[("x", Value.base 3)]⟩)]
        (some ⟨[], "m", false, none⟩) (some "m") none none).2 "m" =
        some (RegEntry.proxy P) ∧
      (∀ a m, alookup P.members a = some m → P.readAttr a = some (ReadResult.member m)) ∧
      (∀ a r, P.readAttr a = some (ReadResult.fromOrig r) →
        alookup P.members a = none ∧ alookup P.orig.attrs a = some r) ∧
      (∀ a v, (P.writeAttr a v).orig.attrs = aset P.orig.attrs a v ∧
        (P.writeAttr a v).members = P.members) :=
  fallback_precedence_amended [("m", RegEntry.mod ⟨[("x", Value.base 3)]⟩)]
    ⟨[], "m", false, none⟩ "m" ⟨[("x", Value.base 3)]⟩ none none
    (by decide) (by decide) (by decide)

/-- Claim C10: every attribute assignment on the installed proxy, member
names included, is forwarded to the original module and never modifies the
proxy itself: the written name reads on the module with the new value, the
member mapping and instance dict are unchanged, and a member name still reads
back as its previous member value. -/
theorem write_forwarding_frame (reg : Registry) (e : Extension) (n : String) (M : PyModule)
    (hreg : alookup reg n = some (RegEntry.mod M)) :
    ∃ P : Proxy,
      alookup (xmod reg (some e) (some n) none none).2 n = some (RegEntry.proxy P) ∧
      ∀ a v,
        alookup ((P.writeAttr a v).orig.attrs) a = some v ∧
        (P.writeAttr a v).members = P.members ∧
        (P.writeAttr a v).instAttrs = P.instAttrs ∧
        ∀ m, alookup P.members a = some m →
          (P.writeAttr a v).readAttr a = some (ReadResult.member m) ∧
          P.readAttr a = some (ReadResult.member m) := by
  have hset := buildMembers_setattr e M MODULE_PROPERTIES OMIT (by decide)
  refine ⟨⟨n, buildMembers e M MODULE_PROPERTIES OMIT, e, M, []⟩, ?_, ?_⟩
  · rw [xmod_direct_eq reg e n none none M hreg]
    exact alookup_aset_self _ _ _
  · intro a v
    refine ⟨?_, ?_, ?_, ?_⟩
    · simp [Proxy.writeAttr, hset, alookup_aset_self]
    · simp [Proxy.writeAttr, hset]
    · simp [Proxy.writeAttr, hset]
    · intro m hm
      exact ⟨by simp [Proxy.writeAttr, hset, Proxy.readAttr, alookup, hm],
             by simp [Proxy.readAttr, alookup, hm]⟩

theorem write_forwarding_frame_witness :
    ∃ P : Proxy,
      alookup (xmod [("n", RegEntry.mod ⟨[]⟩)]
        (some ⟨[("a", Value.base 1)], "n", false, none⟩) (some "n") none none).2 "n" =
        some (RegEntry.proxy P) ∧
      ∀ a v,
        alookup ((P.writeAttr a v).orig.attrs) a = some v ∧
        (P.writeAttr a v).members = P.members ∧
        (P.writeAttr a v).instAttrs = P.instAttrs ∧
        ∀ m, alookup P.members a = some m →
          (P.writeAttr a v).readAttr a = some (ReadResult.member m) ∧
          P.readAttr a = some (ReadResult.member m) :=
  write_forwarding_frame [("n", RegEntry.mod ⟨[]⟩)]
    ⟨[("a", Value.base 1)], "n", false, none⟩ "n" ⟨[]⟩ (by decide)

end Xmod
